import Mathlib

/-!
Verification of the TreeWalker pre-order filesystem traversal engine
(src/lib.rs), as a shallow embedding.

Modelling conventions:
* A directory-entry handle (`std::fs::DirEntry`) is an abstract type `E`.
* The filesystem primitives the engine calls (`entry.metadata()`,
  `read_dir(entry.path())`, `metadata(path)`, `read_dir(path)`) are fields of
  an oracle structure `FsEnv`; error values (`std::io::Error`) are `Nat` codes.
* `Vec<DirEntry>` used as a stack is a `List` whose head is the stack top
  (Rust pushes/pops at the `Vec`'s end, so the Lean list is the reversed
  `Vec`; a Rust `push` is `cons`, a Rust `pop` takes the head).
* A `PathBuf` is a flag saying whether the path is absolute plus its list of
  components; `Path::parent` drops the last component and is `none` on a
  rootless/empty path.
* Rust panics (`expect`, a failed `assert!`) are distinguished from returned
  `Err` values by dedicated result constructors (`AbsResult.panicked`,
  `NewResult.panicked`).
-/

namespace TW

/-- Error code standing for `std::io::Error` values. -/
abbrev ErrCode := Nat

/-- The fields of `std::fs::Metadata` that the engine reads:
`is_dir()`, `st_dev()`, `st_ino()`. -/
structure Metadata where
  is_dir : Bool
  st_dev : Nat
  st_ino : Nat
deriving DecidableEq, Repr

/-- A path: absolute-or-relative flag plus components
(models `std::path::PathBuf`). -/
structure FsPath where
  isAbs : Bool
  comps : List String
deriving DecidableEq, Repr

/-- Model of `PathBuf::push`: if the pushed path is absolute it replaces the
whole path, otherwise its components are appended. -/
def pushPath (a b : FsPath) : FsPath :=
  if b.isAbs then b else ⟨a.isAbs, a.comps ++ b.comps⟩

/-- Model of `Path::parent`: drop the final component; `none` when there is
no final component (the path is a filesystem root or empty). -/
def parentPath (p : FsPath) : Option FsPath :=
  match p.comps with
  | [] => none
  | _ :: _ => some ⟨p.isAbs, p.comps.dropLast⟩

/-- Source function `fn cd_to_parent(path: PathBuf) -> PathBuf`
(src/lib.rs lines 28-39):
when the path has a parent, the unsafe length rewrite truncates the buffer
to exactly the parent path (the `assert!` on capacity always holds since the
buffer already contains the longer path); when it has no parent the path is
returned unchanged. -/
def cd_to_parent (p : FsPath) : FsPath :=
  match parentPath p with
  | some q => q
  | none => p

/-- The external primitives used by `absolute_path`:
`std::env::current_dir()` and `path_absolutize::Absolutize::absolutize`. -/
structure PathEnv where
  current_dir : Except ErrCode FsPath
  absolutize : FsPath → Except ErrCode FsPath

/-- Result of `absolute_path`: either a path, or a panic raised by one of the
two `expect` calls. -/
inductive AbsResult where
  | panicked
  | ok (p : FsPath)
deriving DecidableEq, Repr

/-- Source function `fn absolute_path<P: AsRef<Path>>(path: P) -> PathBuf`
(src/lib.rs lines 42-52): get the CWD (`expect` panics on failure), push
`path` onto it, absolutize (`expect` panics on failure). -/
def absolute_path (penv : PathEnv) (p : FsPath) : AbsResult :=
  match penv.current_dir with
  | .error _ => .panicked
  | .ok cwd =>
    match penv.absolutize (pushPath cwd p) with
    | .error _ => .panicked
    | .ok s => .ok s

/-- The engine state `struct TreeWalker` (src/lib.rs lines 20-24):
a stack of entries and the fatal-error flag. -/
structure TreeWalker (E : Type) where
  stack : List E
  fatal_error : Bool
deriving DecidableEq, Repr

/-- The derived `Default` instance for `TreeWalker`: empty stack
(`Vec::default`), flag false (`bool::default`). -/
def defaultWalker (E : Type) : TreeWalker E := ⟨[], false⟩

/-- The filesystem oracle: per-entry metadata (`DirEntry::metadata`),
per-entry directory listing (`read_dir(entry.path())`), per-path metadata
(`fs::metadata`), and per-path listing (`read_dir(path)`). A listing yields
a list of per-item results, as `ReadDir` does. -/
structure FsEnv (E : Type) where
  metadata : E → Except ErrCode Metadata
  readDir : E → Except ErrCode (List (Except ErrCode E))
  pathMetadata : FsPath → Except ErrCode Metadata
  readDirPath : FsPath → Except ErrCode (List (Except ErrCode E))

/-- The `for res_entry in dir { ... temp_stack.push(entry) }` loop of
`next` (src/lib.rs lines 120-130): accumulate the listed entries onto
`temp` (head = Vec top, so a push is a cons); the first per-entry error
aborts the loop with that error. -/
def fillTemp {E : Type} : List (Except ErrCode E) → List E → Except ErrCode (List E)
  | [], temp => .ok temp
  | .error e :: _, _ => .error e
  | .ok x :: rest, temp => fillTemp rest (x :: temp)

/-- The `while let Some(entry) = temp_stack.pop() { self.stack.push(entry) }`
drain loop of `next` (src/lib.rs lines 133-135): move every entry from the
temporary stack onto the main stack, reversing their order. -/
def drainTemp {E : Type} : List E → List E → List E
  | [], stack => stack
  | x :: xs, stack => drainTemp xs (x :: stack)

/-- Source method `fn next(&mut self)` of `impl Iterator for TreeWalker`
(src/lib.rs lines 89-143), as a pure step function: returns the yielded
item (`none` = the Rust `None`) and the successor state.
The branches mirror the source exactly, including which branches set the
fatal-error flag (note the listing-failure branch writes `false`, exactly
as line 115 of the source does). -/
def next {E : Type} (env : FsEnv E) (w : TreeWalker E) :
    Option (Except ErrCode E) × TreeWalker E :=
  if w.fatal_error then
    (none, w)
  else
    match w.stack with
    | [] => (none, w)
    | entry :: rest =>
      match env.metadata entry with
      | .error e => (some (.error e), { w with stack := rest, fatal_error := true })
      | .ok m =>
        if m.is_dir then
          match env.readDir entry with
          | .error e => (some (.error e), { w with stack := rest, fatal_error := false })
          | .ok items =>
            match fillTemp items [] with
            | .error e => (some (.error e), { w with stack := rest, fatal_error := true })
            | .ok temp =>
              (some (.ok entry), { w with stack := drainTemp temp rest })
        else
          (some (.ok entry), { w with stack := rest })

/-- Drive `next` repeatedly (the caller's `for` loop over the iterator),
collecting every yielded item until `next` returns `none`; `fuel` bounds the
number of calls so the function is total over arbitrary oracles. -/
def runWalker {E : Type} (env : FsEnv E) : Nat → TreeWalker E → List (Except ErrCode E)
  | 0, _ => []
  | fuel + 1, w =>
    match next env w with
    | (none, _) => []
    | (some r, w2) => r :: runWalker env fuel w2

/-- The seed-searching loop of `TreeWalker::new` (src/lib.rs lines 68-78):
walk the parent listing; a per-item error or a metadata error propagates
(`?`); the first item whose (st_dev, st_ino) identity equals the start
metadata's is pushed (stack `[item]`) and the loop breaks; if no item
matches, the stack stays empty. -/
def findSeed {E : Type} (fs : FsEnv E) (sm : Metadata) :
    List (Except ErrCode E) → Except ErrCode (List E)
  | [] => .ok []
  | .error e :: _ => .error e
  | .ok item :: rest =>
    match fs.metadata item with
    | .error e => .error e
    | .ok m =>
      if m.st_dev = sm.st_dev ∧ m.st_ino = sm.st_ino then .ok [item]
      else findSeed fs sm rest

/-- Result of `TreeWalker::new`: `Ok(walker)`, a returned `Err`, or a panic
(from `absolute_path`'s `expect`s or the final `assert_eq!`). -/
inductive NewResult (E : Type) where
  | ok (w : TreeWalker E)
  | err (e : ErrCode)
  | panicked
deriving DecidableEq, Repr

/-- Source constructor `TreeWalker::new` (src/lib.rs lines 56-83): read the
start path's
metadata (`?`), absolutize the start path, rewind it to the parent
directory, list the parent (`?`), search the listing for the seed entry,
then `assert_eq!(walker.stack.len(), 1)` and return the walker (whose flag
is the `Default` false). -/
def new {E : Type} (penv : PathEnv) (fs : FsEnv E) (p : FsPath) : NewResult E :=
  match fs.pathMetadata p with
  | .error e => .err e
  | .ok start_metadata =>
    match absolute_path penv p with
    | .panicked => .panicked
    | .ok start =>
      match fs.readDirPath (cd_to_parent start) with
      | .error e => .err e
      | .ok items =>
        match findSeed fs start_metadata items with
        | .error e => .err e
        | .ok stack =>
          if stack.length = 1 then .ok ⟨stack, false⟩ else .panicked

/-- An abstract finite filesystem tree, used to state the global pre-order
property: a node is a plain file or a directory with an ordered child list
(the order the listing primitive reports). -/
inductive FsTree where
  | file (id : Nat)
  | dir (id : Nat) (children : List FsTree)

mutual

/-- Pre-order of a tree: the node itself, then the pre-orders of its
children in listing order. -/
def preorder : FsTree → List FsTree
  | .file i => [.file i]
  | .dir i cs => .dir i cs :: preorderList cs

/-- Pre-orders of a forest, concatenated in order. -/
def preorderList : List FsTree → List FsTree
  | [] => []
  | t :: ts => preorder t ++ preorderList ts

end

/-- The oracle describing a healthy filesystem shaped like an `FsTree`:
entries are the tree nodes themselves, metadata always succeeds and reports
the node kind, and listing a directory reports its children, all well-formed,
in their given order. The path-level primitives are unused by `next`. -/
def treeEnv : FsEnv FsTree where
  metadata t :=
    match t with
    | .file i => .ok ⟨false, 0, i⟩
    | .dir i _ => .ok ⟨true, 0, i⟩
  readDir t :=
    match t with
    | .file _ => .ok []
    | .dir _ cs => .ok (cs.map Except.ok)
  pathMetadata _ := .error 0
  readDirPath _ := .error 0

/-- Decidable side condition used for the no-parent (filesystem root) claim:
no well-formed item of the listing has the same (st_dev, st_ino) identity as
the start metadata. On a real filesystem this always holds for the root
directory's listing, since a child of the root is never the root itself. -/
def noIdentityMatch {E : Type} (fs : FsEnv E) (sm : Metadata)
    (items : List (Except ErrCode E)) : Bool :=
  items.all fun r =>
    match r with
    | .error _ => true
    | .ok e =>
      match fs.metadata e with
      | .error _ => true
      | .ok m => !(m.st_dev == sm.st_dev && m.st_ino == sm.st_ino)

/-- Entries producible by the engine once its stack is `roots`: the roots
themselves, plus anything enumerated while expanding a reachable
directory. -/
inductive Reach {E : Type} (env : FsEnv E) (roots : List E) : E → Prop where
  | base (x : E) : x ∈ roots → Reach env roots x
  | child (d : E) (items : List (Except ErrCode E)) (temp : List E) (x : E) :
      Reach env roots d → env.readDir d = .ok items →
      fillTemp items [] = .ok temp → x ∈ temp → Reach env roots x

/-- Concrete oracle (entries are `Nat` handles) for exercising the healthy
directory-expansion step: every entry is a directory listing entries 11
and 12. -/
def envC1 : FsEnv Nat where
  metadata e := .ok ⟨true, 0, e⟩
  readDir _ := .ok [.ok 11, .ok 12]
  pathMetadata _ := .error 0
  readDirPath _ := .error 0

/-- Concrete oracle for exercising the fatal branches: entry 1 has an
unreadable metadata (error 7); every other entry is a directory whose
listing contains a malformed item (error 8). -/
def envC2 : FsEnv Nat where
  metadata e := if e = 1 then .error 7 else .ok ⟨true, 0, e⟩
  readDir _ := .ok [.error 8]
  pathMetadata _ := .error 0
  readDirPath _ := .error 0

/-- Concrete oracle for exercising the listing-failure branch: entry 1 is a
directory whose listing fails (error 9); every other entry is a plain
file. -/
def envC4 : FsEnv Nat where
  metadata e := if e = 1 then .ok ⟨true, 0, 1⟩ else .ok ⟨false, 0, e⟩
  readDir _ := .error 9
  pathMetadata _ := .error 0
  readDirPath _ := .error 0

/-- Path environment where both external path primitives succeed (the CWD is
the filesystem root, absolutization is the identity). -/
def penvOk : PathEnv where
  current_dir := .ok ⟨true, []⟩
  absolutize p := .ok p

/-- Path environment where the CWD lookup fails (error 3). -/
def penvBad : PathEnv where
  current_dir := .error 3
  absolutize p := .ok p

/-- Path environment where absolutization fails (error 4). -/
def penvBad2 : PathEnv where
  current_dir := .ok ⟨true, []⟩
  absolutize _ := .error 4

/-- Concrete oracle for exercising construction: the start path is a plain
file with identity (1, 5), and the parent listing contains the single
matching entry 5. -/
def fsC3 : FsEnv Nat where
  metadata e := .ok ⟨false, 1, e⟩
  readDir _ := .ok []
  pathMetadata _ := .ok ⟨false, 1, 5⟩
  readDirPath _ := .ok [.ok 5]

/-- Concrete oracle for exercising construction at the filesystem root: the
start path has identity (0, 1) but the listing's only entry 7 has identity
(0, 9), so no sibling matches. -/
def fsC6 : FsEnv Nat where
  metadata _ := .ok ⟨true, 0, 9⟩
  readDir _ := .ok []
  pathMetadata _ := .ok ⟨true, 0, 1⟩
  readDirPath _ := .ok [.ok 7]

/-- The relative start path used by the concrete construction examples. -/
def pA : FsPath := ⟨false, ["a"]⟩

/-- The absolute root path (no parent). -/
def pRoot : FsPath := ⟨true, []⟩

/-- Sample tree: a root directory containing a subdirectory (with one file)
followed by a plain file. -/
def sampleTree : FsTree := .dir 0 [.dir 1 [.file 2], .file 3]

section Lemmas

variable {E : Type}

lemma fillTemp_map_ok (cs : List E) :
    ∀ temp : List E, fillTemp (cs.map Except.ok) temp = .ok (cs.reverse ++ temp) := by
  induction cs with
  | nil => intro temp; simp [fillTemp]
  | cons c cs ih =>
    intro temp
    simp [fillTemp, ih (c :: temp)]

lemma drainTemp_eq (temp : List E) :
    ∀ stack : List E, drainTemp temp stack = temp.reverse ++ stack := by
  induction temp with
  | nil => intro stack; simp [drainTemp]
  | cons x xs ih =>
    intro stack
    simp [drainTemp, ih (x :: stack)]

/-- The net effect of the temp-stack push/drain pair on an all-healthy
listing: the children end up on the main stack in listing order
(head = first-listed child). -/
lemma drainTemp_fillTemp (cs stack : List E) (temp : List E)
    (h : fillTemp (cs.map Except.ok) [] = .ok temp) :
    drainTemp temp stack = cs ++ stack := by
  rw [fillTemp_map_ok cs []] at h
  cases h
  simp [drainTemp_eq]

lemma next_fatal (env : FsEnv E) (w : TreeWalker E) (h : w.fatal_error = true) :
    next env w = (none, w) := by
  simp [next, h]

lemma runWalker_fatal (env : FsEnv E) (w : TreeWalker E) (h : w.fatal_error = true)
    (fuel : Nat) : runWalker env fuel w = [] := by
  cases fuel with
  | zero => rfl
  | succ n => simp [runWalker, next_fatal env w h]

lemma runWalker_nil (env : FsEnv E) (fuel : Nat) :
    runWalker env fuel ⟨[], false⟩ = [] := by
  cases fuel with
  | zero => rfl
  | succ n => simp [runWalker, next]

/-- One step on a non-directory entry. -/
lemma next_file (env : FsEnv E) (e : E) (rest : List E) (m : Metadata)
    (hm : env.metadata e = .ok m) (hd : m.is_dir = false) :
    next env ⟨e :: rest, false⟩ = (some (.ok e), ⟨rest, false⟩) := by
  simp [next, hm, hd]

/-- One step on a directory entry whose listing and enumeration succeed. -/
lemma next_dir (env : FsEnv E) (e : E) (rest : List E) (m : Metadata) (cs : List E)
    (hm : env.metadata e = .ok m) (hd : m.is_dir = true)
    (hl : env.readDir e = .ok (cs.map Except.ok)) :
    next env ⟨e :: rest, false⟩ = (some (.ok e), ⟨cs ++ rest, false⟩) := by
  simp [next, hm, hd, hl, fillTemp_map_ok cs [], drainTemp_eq]

lemma preorder_ne_nil (t : FsTree) : preorder t ≠ [] := by
  cases t <;> simp [preorder]

lemma preorderList_append (a b : List FsTree) :
    preorderList (a ++ b) = preorderList a ++ preorderList b := by
  induction a with
  | nil => simp [preorderList]
  | cons t ts ih => simp [preorderList, ih]

lemma preorderList_eq_nil (s : List FsTree) (h : preorderList s = []) : s = [] := by
  cases s with
  | nil => rfl
  | cons t ts =>
    simp [preorderList] at h
    exact absurd h.1 (preorder_ne_nil t)

/-- Main traversal lemma: on a healthy tree-shaped filesystem, running the
engine from any stack of (disjoint) pending subtrees yields exactly the
concatenated pre-orders of those subtrees, provided the fuel covers the
total number of nodes. -/
lemma runWalker_treeEnv :
    ∀ (fuel : Nat) (stack : List FsTree), (preorderList stack).length ≤ fuel →
      runWalker treeEnv fuel ⟨stack, false⟩ = (preorderList stack).map Except.ok := by
  intro fuel
  induction fuel with
  | zero =>
    intro stack h
    have h0 : preorderList stack = [] := by
      cases hp : preorderList stack with
      | nil => rfl
      | cons x xs => rw [hp] at h; simp at h
    rw [preorderList_eq_nil stack h0]
    simp [runWalker, preorderList]
  | succ n ih =>
    intro stack h
    cases stack with
    | nil => simp [runWalker_nil, preorderList]
    | cons t ts =>
      cases t with
      | file i =>
        have hstep := next_file treeEnv (FsTree.file i) ts ⟨false, 0, i⟩ rfl rfl
        simp only [preorderList, preorder] at h ⊢
        simp only [runWalker, hstep]
        rw [ih ts (by simpa using Nat.le_of_succ_le_succ h)]
        simp
      | dir i cs =>
        have hstep := next_dir treeEnv (FsTree.dir i cs) ts ⟨true, 0, i⟩ cs rfl rfl rfl
        simp only [preorderList, preorder] at h ⊢
        simp only [runWalker, hstep]
        rw [ih (cs ++ ts) ?hlen]
        · simp [preorderList_append]
        case hlen =>
          rw [preorderList_append, List.length_append]
          simp at h
          omega

end Lemmas

section MoreLemmas

variable {E : Type}

lemma findSeed_mem (fs : FsEnv E) (sm : Metadata) :
    ∀ (items : List (Except ErrCode E)) (e : E), findSeed fs sm items = .ok [e] →
      Except.ok e ∈ items ∧ ∃ m, fs.metadata e = .ok m ∧
        m.st_dev = sm.st_dev ∧ m.st_ino = sm.st_ino := by
  intro items
  induction items with
  | nil => intro e h; simp [findSeed] at h
  | cons it rest ih =>
    intro e h
    match it with
    | .error c => simp [findSeed] at h
    | .ok item =>
      simp only [findSeed] at h
      cases hm : fs.metadata item with
      | error c => rw [hm] at h; simp at h
      | ok m =>
        simp only [hm] at h
        by_cases hc : m.st_dev = sm.st_dev ∧ m.st_ino = sm.st_ino
        · rw [if_pos hc] at h
          simp at h
          cases h
          exact ⟨List.mem_cons_self _ _, m, hm, hc.1, hc.2⟩
        · rw [if_neg hc] at h
          obtain ⟨hmem, hrest⟩ := ih e h
          exact ⟨List.mem_cons_of_mem _ hmem, hrest⟩

lemma findSeed_of_noMatch (fs : FsEnv E) (sm : Metadata) :
    ∀ (items : List (Except ErrCode E)), noIdentityMatch fs sm items = true →
      ∀ l, findSeed fs sm items = .ok l → l = [] := by
  intro items
  induction items with
  | nil => intro _ l h; simpa [findSeed] using h.symm
  | cons it rest ih =>
    intro hno l h
    match it with
    | .error c => simp [findSeed] at h
    | .ok item =>
      rw [noIdentityMatch, List.all_cons, Bool.and_eq_true] at hno
      simp only [findSeed] at h
      cases hm : fs.metadata item with
      | error c => rw [hm] at h; simp at h
      | ok m =>
        simp only [hm] at h
        have hne : ¬(m.st_dev = sm.st_dev ∧ m.st_ino = sm.st_ino) := by
          have h1 := hno.1
          simp only [hm] at h1
          simp at h1
          intro hcon
          rcases h1 with h1 | h1 <;> [exact h1 hcon.1; exact h1 hcon.2]
        rw [if_neg hne] at h
        exact ih hno.2 l h

/-- Provenance: every success value the engine ever yields, starting from a
stack whose members are all `Reach`-able, is itself `Reach`-able. -/
lemma runWalker_reach (env : FsEnv E) (roots : List E) :
    ∀ (fuel : Nat) (stack : List E), (∀ s ∈ stack, Reach env roots s) →
      ∀ x, Except.ok x ∈ runWalker env fuel ⟨stack, false⟩ → Reach env roots x := by
  intro fuel
  induction fuel with
  | zero => intro stack _ x hx; simp [runWalker] at hx
  | succ n ih =>
    intro stack hs x hx
    cases stack with
    | nil => rw [runWalker_nil] at hx; simp at hx
    | cons e rest =>
      have hrest : ∀ s ∈ rest, Reach env roots s :=
        fun s hsm => hs s (List.mem_cons_of_mem _ hsm)
      cases hm : env.metadata e with
      | error c =>
        rw [show runWalker env (n + 1) ⟨e :: rest, false⟩
              = Except.error c :: runWalker env n ⟨rest, true⟩ by
            simp [runWalker, next, hm]] at hx
        rw [runWalker_fatal env _ rfl] at hx
        simp at hx
      | ok m =>
        by_cases hd : m.is_dir = true
        · cases hr : env.readDir e with
          | error c =>
            rw [show runWalker env (n + 1) ⟨e :: rest, false⟩
                  = Except.error c :: runWalker env n ⟨rest, false⟩ by
                simp [runWalker, next, hm, hd, hr]] at hx
            rcases List.mem_cons.mp hx with h1 | h2
            · simp at h1
            · exact ih rest hrest x h2
          | ok items =>
            cases hf : fillTemp items [] with
            | error c =>
              rw [show runWalker env (n + 1) ⟨e :: rest, false⟩
                    = Except.error c :: runWalker env n ⟨rest, true⟩ by
                  simp [runWalker, next, hm, hd, hr, hf]] at hx
              rw [runWalker_fatal env _ rfl] at hx
              simp at hx
            | ok temp =>
              rw [show runWalker env (n + 1) ⟨e :: rest, false⟩
                    = Except.ok e :: runWalker env n ⟨drainTemp temp rest, false⟩ by
                  simp [runWalker, next, hm, hd, hr, hf]] at hx
              rcases List.mem_cons.mp hx with h1 | h2
              · have hxe : x = e := by simpa using h1
                exact hxe ▸ hs e (List.mem_cons_self _ _)
              · refine ih (drainTemp temp rest) ?_ x h2
                intro s hsm
                rw [drainTemp_eq] at hsm
                rcases List.mem_append.mp hsm with ha | hb
                · exact Reach.child e items temp s
                    (hs e (List.mem_cons_self _ _)) hr hf (List.mem_reverse.mp ha)
                · exact hrest s hb
        · have hd' : m.is_dir = false := by
            cases hb : m.is_dir
            · rfl
            · exact absurd hb hd
          rw [show runWalker env (n + 1) ⟨e :: rest, false⟩
                = Except.ok e :: runWalker env n ⟨rest, false⟩ by
              simp [runWalker, next, hm, hd']] at hx
          rcases List.mem_cons.mp hx with h1 | h2
          · have hxe : x = e := by simpa using h1
            exact hxe ▸ hs e (List.mem_cons_self _ _)
          · exact ih rest hrest x h2

/-- Shape of every successfully constructed engine: the flag is false and
the stack holds exactly the first identity-matching entry of the parent
listing. -/
lemma new_ok_cases (penv : PathEnv) (fs : FsEnv E) (p : FsPath) (w : TreeWalker E)
    (h : new penv fs p = .ok w) :
    w.fatal_error = false ∧ ∃ sm s items e m,
      fs.pathMetadata p = .ok sm ∧
      absolute_path penv p = .ok s ∧
      fs.readDirPath (cd_to_parent s) = .ok items ∧
      Except.ok e ∈ items ∧
      fs.metadata e = .ok m ∧
      m.st_dev = sm.st_dev ∧ m.st_ino = sm.st_ino ∧
      w = ⟨[e], false⟩ := by
  simp only [new] at h
  split at h
  · simp at h
  next sm hpm =>
    split at h
    · simp at h
    next s habs =>
      split at h
      · simp at h
      next items hrd =>
        split at h
        · simp at h
        next stack hfs =>
          split at h
          next hlen =>
            obtain ⟨e, he⟩ := List.length_eq_one.mp hlen
            subst he
            obtain ⟨hmem, m, hm, hdev, hino⟩ := findSeed_mem fs sm items e hfs
            cases h
            exact ⟨rfl, sm, s, items, e, m, hpm, habs, hrd, hmem, hm, hdev, hino, rfl⟩
          · simp at h

end MoreLemmas

/-- Claim C1: when a popped directory's metadata read, child listing, and
per-child enumeration all succeed, the children are pushed in reverse of
listing order (the temp stack ends up holding the reversed listing), so the
new stack pops them in original listing order; and over a healthy
tree-shaped filesystem the whole yielded sequence is exactly the pre-order
traversal of the start subtree. -/
theorem claim_C1 :
    (∀ (E : Type) (env : FsEnv E) (e : E) (rest : List E) (m : Metadata) (cs : List E),
      env.metadata e = .ok m → m.is_dir = true →
      env.readDir e = .ok (cs.map Except.ok) →
        fillTemp (cs.map Except.ok) [] = .ok cs.reverse ∧
        next env ⟨e :: rest, false⟩ = (some (.ok e), ⟨cs ++ rest, false⟩)) ∧
    (∀ (t : FsTree) (fuel : Nat), (preorder t).length ≤ fuel →
      runWalker treeEnv fuel ⟨[t], false⟩ = (preorder t).map Except.ok) := by
  constructor
  · intro E env e rest m cs hm hd hl
    exact ⟨by simpa using fillTemp_map_ok cs [], next_dir env e rest m cs hm hd hl⟩
  · intro t fuel h
    have hlen : (preorderList [t]).length ≤ fuel := by
      simpa [preorderList] using h
    have := runWalker_treeEnv fuel [t] hlen
    simpa [preorderList] using this

/-- Witness for C1 at concrete inputs: expanding directory 10 over `envC1`
pushes children 11, 12 so they pop in listing order; and traversing
`sampleTree` yields its pre-order. -/
theorem claim_C1_witness :
    next envC1 ⟨[10, 99], false⟩ = (some (.ok 10), ⟨[11, 12, 99], false⟩) ∧
    runWalker treeEnv 4 ⟨[sampleTree], false⟩ = (preorder sampleTree).map Except.ok :=
  ⟨(claim_C1.1 Nat envC1 10 [99] ⟨true, 0, 10⟩ [11, 12] rfl rfl rfl).2,
   claim_C1.2 sampleTree 4 (by simp [sampleTree, preorder, preorderList])⟩

/-- Claim C2: a metadata-read failure on the popped entry, or a per-child
enumeration failure while expanding a directory, yields that error with the
fatal-error flag set; and once the flag is set, every later call yields
nothing, even though entries may remain on the stack. -/
theorem claim_C2 :
    (∀ (E : Type) (env : FsEnv E) (e : E) (rest : List E) (c : ErrCode),
      env.metadata e = .error c →
        next env ⟨e :: rest, false⟩ = (some (.error c), ⟨rest, true⟩)) ∧
    (∀ (E : Type) (env : FsEnv E) (e : E) (rest : List E) (m : Metadata)
        (items : List (Except ErrCode E)) (c : ErrCode),
      env.metadata e = .ok m → m.is_dir = true → env.readDir e = .ok items →
      fillTemp items [] = .error c →
        next env ⟨e :: rest, false⟩ = (some (.error c), ⟨rest, true⟩)) ∧
    (∀ (E : Type) (env : FsEnv E) (w : TreeWalker E), w.fatal_error = true →
      next env w = (none, w) ∧ ∀ fuel, runWalker env fuel w = []) := by
  refine ⟨?_, ?_, ?_⟩
  · intro E env e rest c hm
    simp [next, hm]
  · intro E env e rest m items c hm hd hl hf
    simp [next, hm, hd, hl, hf]
  · intro E env w hw
    exact ⟨next_fatal env w hw, runWalker_fatal env w hw⟩

/-- Witness for C2 at concrete inputs over `envC2`: the unreadable entry 1
and the malformed enumeration under entry 2 both yield their error and set
the flag; with the flag set, entry 5 still on the stack is never yielded. -/
theorem claim_C2_witness :
    next envC2 ⟨[1, 5], false⟩ = (some (.error 7), ⟨[5], true⟩) ∧
    next envC2 ⟨[2], false⟩ = (some (.error 8), ⟨[], true⟩) ∧
    next envC2 ⟨[5], true⟩ = (none, ⟨[5], true⟩) ∧
    runWalker envC2 4 ⟨[5], true⟩ = [] :=
  ⟨claim_C2.1 Nat envC2 1 [5] 7 rfl,
   claim_C2.2.1 Nat envC2 2 [] ⟨true, 0, 2⟩ [.error 8] 8 rfl rfl rfl rfl,
   (claim_C2.2.2 Nat envC2 ⟨[5], true⟩ rfl).1,
   (claim_C2.2.2 Nat envC2 ⟨[5], true⟩ rfl).2 4⟩

/-- Claim C3: every engine returned as Ok by the constructor has the
fatal-error flag false and a stack holding exactly one entry, an entry of
the start's parent-directory listing whose (st_dev, st_ino) identity equals
the identity read for the start path in step 1. -/
theorem claim_C3 {E : Type} (penv : PathEnv) (fs : FsEnv E) (p : FsPath)
    (w : TreeWalker E) (h : new penv fs p = .ok w) :
    w.fatal_error = false ∧ ∃ sm items e m,
      fs.pathMetadata p = .ok sm ∧
      (∃ s, absolute_path penv p = .ok s ∧ fs.readDirPath (cd_to_parent s) = .ok items) ∧
      w.stack = [e] ∧ Except.ok e ∈ items ∧ fs.metadata e = .ok m ∧
      m.st_dev = sm.st_dev ∧ m.st_ino = sm.st_ino := by
  obtain ⟨hf, sm, s, items, e, m, hpm, habs, hrd, hmem, hm, hdev, hino, hw⟩ :=
    new_ok_cases penv fs p w h
  subst hw
  exact ⟨rfl, sm, items, e, m, hpm, ⟨s, habs, hrd⟩, rfl, hmem, hm, hdev, hino⟩

/-- Witness for C3: over `penvOk` and `fsC3` the constructor succeeds, and
the claim applies to the resulting engine (singleton stack, flag false). -/
theorem claim_C3_witness :
    new penvOk fsC3 pA = .ok ⟨[5], false⟩ ∧
    (TreeWalker.mk [5] false).fatal_error = false :=
  ⟨rfl, (claim_C3 penvOk fsC3 pA ⟨[5], false⟩ rfl).1⟩

/-- Claim C4: a listing failure on a popped directory yields that error
without setting the fatal-error flag (the source even rewrites it to false),
and the traversal can continue: the next call still processes the remaining
stack normally. -/
theorem claim_C4 {E : Type} (env : FsEnv E) (e : E) (rest : List E) (m : Metadata)
    (c : ErrCode) (h1 : env.metadata e = .ok m) (h2 : m.is_dir = true)
    (h3 : env.readDir e = .error c) :
    next env ⟨e :: rest, false⟩ = (some (.error c), ⟨rest, false⟩) ∧
    ∀ (f : E) (rest2 : List E) (mf : Metadata), rest = f :: rest2 →
      env.metadata f = .ok mf → mf.is_dir = false →
      next env ⟨rest, false⟩ = (some (.ok f), ⟨rest2, false⟩) := by
  constructor
  · simp [next, h1, h2, h3]
  · intro f rest2 mf hr hmf hdf
    rw [hr]
    exact next_file env f rest2 mf hmf hdf

/-- Witness for C4 over `envC4`: directory 1's listing fails with error 9,
the flag stays false, and the following call yields the plain file 2 that
was still on the stack. -/
theorem claim_C4_witness :
    next envC4 ⟨[1, 2], false⟩ = (some (.error 9), ⟨[2], false⟩) ∧
    next envC4 ⟨[2], false⟩ = (some (.ok 2), ⟨[], false⟩) :=
  ⟨(claim_C4 envC4 1 [2] ⟨true, 0, 1⟩ 9 rfl rfl rfl).1,
   (claim_C4 envC4 1 [2] ⟨true, 0, 1⟩ 9 rfl rfl rfl).2 2 [] ⟨false, 0, 2⟩ rfl rfl rfl⟩

/-- Claim C5: the fatal-error flag is false in a default-constructed engine
and in every engine the constructor returns as Ok; and it is monotone: once
true, a call to `next` leaves the state untouched and yields nothing, so no
call sequence ever resets it and no further values are produced. -/
theorem claim_C5 :
    (∀ (E : Type), (defaultWalker E).fatal_error = false) ∧
    (∀ (E : Type) (penv : PathEnv) (fs : FsEnv E) (p : FsPath) (w : TreeWalker E),
      new penv fs p = .ok w → w.fatal_error = false) ∧
    (∀ (E : Type) (env : FsEnv E) (w : TreeWalker E), w.fatal_error = true →
      next env w = (none, w) ∧ ∀ fuel, runWalker env fuel w = []) := by
  refine ⟨fun E => rfl, ?_, ?_⟩
  · intro E penv fs p w h
    exact (new_ok_cases penv fs p w h).1
  · intro E env w hw
    exact ⟨next_fatal env w hw, runWalker_fatal env w hw⟩

/-- Witness for C5: the engine constructed over `fsC3` has the flag false,
and a flag-true state over `envC1` is a fixed point of `next` that yields
nothing. -/
theorem claim_C5_witness :
    (TreeWalker.mk [5] false).fatal_error = false ∧
    next envC1 ⟨[9], true⟩ = (none, ⟨[9], true⟩) ∧
    runWalker envC1 5 ⟨[9], true⟩ = [] :=
  ⟨claim_C5.2.1 Nat penvOk fsC3 pA ⟨[5], false⟩ rfl,
   (claim_C5.2.2 Nat envC1 ⟨[9], true⟩ rfl).1,
   (claim_C5.2.2 Nat envC1 ⟨[9], true⟩ rfl).2 5⟩

/-- Claim C6: starting from a path whose absolutized form has no parent (the
filesystem root), the constructor never returns a usable engine: since no
entry of the listed directory can share the root's filesystem identity, the
seed search finds nothing (or fails), so construction ends in a returned
error or in the failed `assert_eq!` — never in Ok. -/
theorem claim_C6 {E : Type} (penv : PathEnv) (fs : FsEnv E) (p : FsPath)
    (sm : Metadata) (s : FsPath) (items : List (Except ErrCode E))
    (h1 : fs.pathMetadata p = .ok sm)
    (h2 : absolute_path penv p = .ok s)
    (_h3 : parentPath s = none)
    (h4 : fs.readDirPath (cd_to_parent s) = .ok items)
    (h5 : noIdentityMatch fs sm items = true) :
    ∀ w : TreeWalker E, new penv fs p ≠ .ok w := by
  intro w hok
  simp only [new, h1, h2, h4] at hok
  cases hfs : findSeed fs sm items with
  | error c => rw [hfs] at hok; simp at hok
  | ok l =>
    rw [hfs] at hok
    have hl : l = [] := findSeed_of_noMatch fs sm items h5 l hfs
    subst hl
    simp at hok

/-- Witness for C6: over `penvOk` and `fsC6` the start path is the root
`pRoot` (no parent), its identity (0, 1) matches no listed entry, and the
constructor indeed does not return Ok (it hits the failed assertion). -/
theorem claim_C6_witness :
    parentPath pRoot = none ∧
    noIdentityMatch fsC6 ⟨true, 0, 1⟩ [Except.ok 7] = true ∧
    new penvOk fsC6 pRoot ≠ .ok ⟨[7], false⟩ :=
  ⟨rfl, rfl, claim_C6 penvOk fsC6 pRoot ⟨true, 0, 1⟩ pRoot [Except.ok 7]
    rfl rfl rfl rfl rfl ⟨[7], false⟩⟩

/-- Claim C7: an engine successfully constructed from a start path whose
seed entry is a plain file yields exactly that one entry as a success value
on the first call, and every subsequent call yields nothing. -/
theorem claim_C7 {E : Type} (penv : PathEnv) (fs : FsEnv E) (p : FsPath)
    (w : TreeWalker E) (e : E) (m : Metadata)
    (h1 : new penv fs p = .ok w) (h2 : w.stack = [e])
    (h3 : fs.metadata e = .ok m) (h4 : m.is_dir = false) :
    next fs w = (some (.ok e), ⟨[], false⟩) ∧
    ∀ fuel : Nat, runWalker fs (fuel + 1) w = [Except.ok e] := by
  obtain ⟨hf, _, _, _, _, _, _, _, _, _, _, _, hw⟩ := new_ok_cases penv fs p w h1
  have hw1 : w = ⟨[e], false⟩ := by
    cases w
    simp_all
  subst hw1
  have hstep := next_file fs e [] m h3 h4
  refine ⟨hstep, fun fuel => ?_⟩
  simp [runWalker, hstep, runWalker_nil]

/-- Witness for C7: the engine constructed over `fsC3` (seed entry 5, a
plain file of identity (1, 5)) yields exactly entry 5 and then ends. -/
theorem claim_C7_witness :
    next fsC3 ⟨[5], false⟩ = (some (.ok 5), ⟨[], false⟩) ∧
    runWalker fsC3 3 ⟨[5], false⟩ = [Except.ok 5] :=
  ⟨(claim_C7 penvOk fsC3 pA ⟨[5], false⟩ 5 ⟨false, 1, 5⟩ rfl rfl rfl rfl).1,
   (claim_C7 penvOk fsC3 pA ⟨[5], false⟩ 5 ⟨false, 1, 5⟩ rfl rfl rfl rfl).2 2⟩

/-- Claim C8 counterexample: with a failing CWD lookup (error 3) the
constructor panics (the `expect` aborts out-of-band); it does not return the
error to its caller, contrary to the claim's propagation statement. -/
theorem claim_C8_counterexample :
    new penvBad fsC3 pA = NewResult.panicked ∧
    new penvBad fsC3 pA ≠ NewResult.err 3 := by
  exact ⟨rfl, by decide⟩

/-- Claim C8 as amended: when the CWD lookup or the normalization primitive
fails, `absolute_path` panics (its `expect` calls), so `TreeWalker::new`
aborts out-of-band with a panic instead of returning the error value. -/
theorem claim_C8_panic {E : Type} (penv : PathEnv) (fs : FsEnv E) (p : FsPath)
    (sm : Metadata) (h1 : fs.pathMetadata p = .ok sm) :
    (∀ c : ErrCode, penv.current_dir = .error c →
      absolute_path penv p = .panicked ∧ new penv fs p = .panicked) ∧
    (∀ (cwd : FsPath) (c : ErrCode), penv.current_dir = .ok cwd →
      penv.absolutize (pushPath cwd p) = .error c →
      absolute_path penv p = .panicked ∧ new penv fs p = .panicked) := by
  constructor
  · intro c hc
    have habs : absolute_path penv p = .panicked := by
      simp [absolute_path, hc]
    exact ⟨habs, by simp [new, h1, habs]⟩
  · intro cwd c hcwd hab
    have habs : absolute_path penv p = .panicked := by
      simp [absolute_path, hcwd, hab]
    exact ⟨habs, by simp [new, h1, habs]⟩

/-- Witness for the amended C8: over `penvBad` (CWD fails, error 3) and over
`penvBad2` (normalization fails, error 4) construction panics. -/
theorem claim_C8_witness :
    (absolute_path penvBad pA = .panicked ∧ new penvBad fsC3 pA = .panicked) ∧
    (absolute_path penvBad2 pA = .panicked ∧ new penvBad2 fsC3 pA = .panicked) :=
  ⟨(claim_C8_panic penvBad fsC3 pA ⟨false, 1, 5⟩ rfl).1 3 rfl,
   (claim_C8_panic penvBad2 fsC3 pA ⟨false, 1, 5⟩ rfl).2 ⟨true, []⟩ 4 rfl rfl⟩

/-- Claim C9: when a popped directory's listing fails, that call yields the
error, the popped entry is discarded (the new stack is exactly the remaining
entries), and afterwards the engine can only ever yield entries reachable
from the remaining stack — so the failed directory and its entire subtree
(anything not reachable from the rest) are permanently omitted. -/
theorem claim_C9 {E : Type} (env : FsEnv E) (e : E) (rest : List E) (m : Metadata)
    (c : ErrCode) (h1 : env.metadata e = .ok m) (h2 : m.is_dir = true)
    (h3 : env.readDir e = .error c) :
    next env ⟨e :: rest, false⟩ = (some (.error c), ⟨rest, false⟩) ∧
    ∀ (fuel : Nat) (x : E), ¬ Reach env rest x →
      Except.ok x ∉ runWalker env fuel ⟨rest, false⟩ := by
  constructor
  · simp [next, h1, h2, h3]
  · intro fuel x hnr hmem
    exact hnr (runWalker_reach env rest fuel rest (fun s hs => Reach.base s hs) x hmem)

/-- Witness for C9 over `envC4`: expanding directory 1 fails with error 9
and yields the error, not the entry; with an empty remaining stack, entry 1
is never yielded afterwards. -/
theorem claim_C9_witness :
    next envC4 ⟨[1], false⟩ = (some (.error 9), ⟨[], false⟩) ∧
    Except.ok 1 ∉ runWalker envC4 3 ⟨[], false⟩ :=
  ⟨(claim_C9 envC4 1 [] ⟨true, 0, 1⟩ 9 rfl rfl rfl).1,
   (claim_C9 envC4 1 [] ⟨true, 0, 1⟩ 9 rfl rfl rfl).2 3 1 (by
     intro h
     have hall : ∀ y : Nat, Reach envC4 ([] : List Nat) y → False := by
       intro y hy
       induction hy with
       | base x hx => simp at hx
       | child d items temp x hd hr hf hx ih => exact ih
     exact hall 1 h)⟩

/-- Claim C10: a default-constructed engine (empty stack, flag false) yields
nothing on its first and on every subsequent call. -/
theorem claim_C10 :
    (∀ (E : Type) (env : FsEnv E), next env (defaultWalker E) = (none, defaultWalker E)) ∧
    (∀ (E : Type) (env : FsEnv E) (fuel : Nat), runWalker env fuel (defaultWalker E) = []) := by
  constructor
  · intro E env
    simp [next, defaultWalker]
  · intro E env fuel
    exact runWalker_nil env fuel

end TW
